import Mathlib

/-!
# Verification of the Swiftcomplete checkout widget core

Shallow embedding of the suggestion-search controller and highlight
renderer from the `swiftcomplete-shopify` repository, together with
theorems settling the specification claims. JS strings are modelled as
`List Char`; JS numbers appearing as highlight offsets are modelled as
`Int` (clamping in the source makes negative values meaningful);
optional / nullable values are modelled with `Option`; fetch and
apply-collaborator outcomes are passed in explicitly.
-/

namespace Swiftcomplete

/-- Convert a string literal to the `List Char` representation used
throughout the embedding. -/
def strL (s : String) : List Char := s.toList

/-- The non-breaking-space character ` ` used by the display layer. -/
def nbsp : Char := Char.ofNat 160

/-- JS `String.prototype.trim`: drop whitespace from both ends. -/
def trimChars (s : List Char) : List Char :=
  ((s.dropWhile Char.isWhitespace).reverse.dropWhile Char.isWhitespace).reverse

/-- JS `text.slice(a, b)` for `0 ≤ a`, `0 ≤ b` (as used in the source). -/
def sliceL (t : List Char) (a b : Nat) : List Char := (t.take b).drop a

/-! ## Configuration (`config.ts`) -/

def MIN_QUERY_LENGTH : Nat := 3
def DEBOUNCE_MS : Nat := 250

def LOOKUP_ENDPOINT : List Char := strL "https://api.swiftcomplete.com/v1/swiftlookup/"

def LOOKUP_PARAMS : List (List Char × List Char) :=
  [ (strL "countries", strL "GB")
  , (strL "origin", strL "swiftcomplete-store.myshopify.com")
  , (strL "key", strL "1564a0e7-5eea-4aaf-8a31-39ed0c62698d")
  , (strL "searchFor", strL "what3words,address") ]

/-! ## Data model (`type.ts`, `location.ts`) -/

structure HighlightableText where
  text : List Char
  highlights : List Int
deriving DecidableEq, Repr

/-- A lookup result. Optional JS string fields that are only ever used
through truthiness tests (`container`) are modelled as `List Char` with
`[]` for absent/empty; `isContainer?: boolean` is modelled as `Bool`
with `false` for `undefined`. -/
structure Location where
  type : Option (List Char)
  isContainer : Bool
  container : List Char
  primary : HighlightableText
  secondary : HighlightableText
  countryCode : List Char
deriving DecidableEq, Repr

/-- `getLocationKey` from `location.ts`:
`` `${primary.text}-${secondary.text}` ``. -/
def getLocationKey (l : Location) : List Char :=
  l.primary.text ++ '-' :: l.secondary.text

/-! ## Highlight renderer (`HighlightedText.tsx`) -/

structure Segment where
  value : List Char
  isHighlight : Bool
deriving DecidableEq, Repr

/-- `Math.min(Math.max(rawStart, 0), text.length)`. -/
def clampStart (len : Nat) (x : Int) : Nat := (min (max x 0) (len : Int)).toNat

/-- `Math.min(Math.max(rawEnd + 1, start), text.length)`. -/
def clampEnd (len : Nat) (start : Nat) (e : Int) : Nat :=
  (min (max (e + 1) (start : Int)) (len : Int)).toNat

/-- One iteration of the offsets loop: with the cursor at `cursor`,
process the pair `(rawStart, rawEnd)`, emitting the unhighlighted gap
and the highlighted slice, and return the new cursor (`endExclusive`). -/
def pairSegs (t : List Char) (cursor : Nat) (rawStart rawEnd : Int) :
    List Segment × Nat :=
  let len := t.length
  let start := clampStart len rawStart
  let endEx := clampEnd len start rawEnd
  ((if cursor < start then [⟨sliceL t cursor start, false⟩] else []) ++
   (if start < endEx then [⟨sliceL t start endEx, true⟩] else []), endEx)

/-- The `for (let i = 0; i < highlights.length; i += 2)` loop: a missing
second element of the final pair defaults to the first
(`highlights[i + 1] ?? rawStart`). Returns the emitted segments and the
final cursor. -/
def offsetsLoop (t : List Char) : List Int → Nat → List Segment × Nat
  | [], c => ([], c)
  | [s], c => pairSegs t c s s
  | s :: e :: rest, c =>
      let p := pairSegs t c s e
      let q := offsetsLoop t rest p.2
      (p.1 ++ q.1, q.2)

/-- The explicit-offsets branch, including the trailing unhighlighted
remainder. -/
def offsetsSegments (t : List Char) (hs : List Int) : List Segment :=
  let p := offsetsLoop t hs 0
  p.1 ++ (if p.2 < t.length then [⟨t.drop p.2, false⟩] else [])

/-- JS `haystack.indexOf(needle)` on lists: first index at which
`needle` occurs, `none` if it does not. -/
def findSub (needle : List Char) : List Char → Option Nat
  | [] => if needle.isPrefixOf [] then some 0 else none
  | c :: rest =>
      if needle.isPrefixOf (c :: rest) then some 0
      else (findSub needle rest).map (· + 1)

/-- The `fallbackQuery` branch: trim the query, search for it
case-insensitively, and if found emit prefix / match / suffix, omitting
empty prefix and suffix. -/
def fallbackSegments (t q : List Char) : List Segment :=
  let normalizedQuery := trimChars q
  if 0 < normalizedQuery.length then
    let lowerText := t.map Char.toLower
    let lowerQuery := normalizedQuery.map Char.toLower
    match findSub lowerQuery lowerText with
    | some startIndex =>
        let endIndex := startIndex + normalizedQuery.length
        (if 0 < startIndex then [⟨t.take startIndex, false⟩] else []) ++
        [⟨sliceL t startIndex endIndex, true⟩] ++
        (if endIndex < t.length then [⟨t.drop endIndex, false⟩] else [])
    | none => []
  else []

/-- `Array.isArray(highlights) && highlights.length >= 2`. -/
def hasOffsets (highlights : Option (List Int)) : Bool :=
  match highlights with
  | some hs => 2 ≤ hs.length
  | none => false

/-- The segment list computed by `HighlightedText` before display
post-processing: offsets branch, else fallback-query branch, else (or
when both produce nothing) the whole text as one unhighlighted
segment. -/
def highlightSegments (t : List Char) (highlights : Option (List Int))
    (fallbackQuery : Option (List Char)) : List Segment :=
  let segs :=
    if hasOffsets highlights then offsetsSegments t (highlights.getD [])
    else
      match fallbackQuery with
      | some q => if q = [] then [] else fallbackSegments t q
      | none => []
  if segs = [] then [⟨t, false⟩] else segs

/-- Display post-processing of one segment value in the canonical
`HighlightedText.tsx`: the leading run of spaces and the trailing run of
spaces are each replaced by non-breaking spaces, the middle is kept, and
an empty result becomes a single non-breaking space. -/
def displayValue (v : List Char) : List Char :=
  let leadingSpaces := v.takeWhile (· = ' ')
  let trailingSpaces := (v.reverse.takeWhile (· = ' ')).reverse
  let middle := (v.take (v.length - trailingSpaces.length)).drop leadingSpaces.length
  let d := leadingSpaces.map (fun _ => nbsp) ++ middle ++
    trailingSpaces.map (fun _ => nbsp)
  if d = [] then [nbsp] else d

/-- Display post-processing in the `isWhitespaceOnly` iteration of
`HighlightedText` (src/unnamed/part_002): a whitespace-only value has
each space replaced by a non-breaking space (collapsing to one
non-breaking space only when empty); other values are processed as in
the canonical version. -/
def displayValueWsOnly (v : List Char) : List Char :=
  if (trimChars v).length = 0 then
    let d := v.map (fun c => if c = ' ' then nbsp else c)
    if d = [] then [nbsp] else d
  else displayValue v

/-- Undo the space → non-breaking-space substitution. -/
def undoNbsp (v : List Char) : List Char :=
  v.map (fun c => if c = nbsp then ' ' else c)

/-- Concatenation of the values of a segment list. -/
def segsConcat (l : List Segment) : List Char := (l.map Segment.value).flatten

/-! ## Suggestion search controller (`Swiftcomplete.tsx`) -/

inductive BannerTone where
  | success
  | critical
deriving DecidableEq, Repr

structure Banner where
  tone : BannerTone
  message : List Char
deriving DecidableEq, Repr

inductive SelectionState where
  | idle
  | pending (key : List Char)
  | settled (key : List Char)
deriving DecidableEq, Repr

/-- The observable state of the controller component: the six signals of
the `Swiftcomplete` component. -/
structure ControllerState where
  inputValue : List Char
  suggestions : List Location
  isSearching : Bool
  statusBanner : Option Banner
  selectionState : SelectionState
  panelOpen : Bool
deriving DecidableEq, Repr

def initController : ControllerState :=
  ⟨[], [], false, none, .idle, false⟩

/-- A lookup URL: the fixed endpoint plus its query parameters. -/
structure LookupUrl where
  endpoint : List Char
  params : List (List Char × List Char)
deriving DecidableEq, Repr

/-- `URLSearchParams.set`: replace the value of an existing key, or
append the pair. -/
def paramsSet (ps : List (List Char × List Char)) (k v : List Char) :
    List (List Char × List Char) :=
  if ps.any (fun p => p.1 = k) then
    ps.map (fun p => if p.1 = k then (k, v) else p)
  else ps ++ [(k, v)]

/-- `buildLookupUrl`: start from `LOOKUP_PARAMS`, set `maxResults`
(default 5), set `text` when a query is given (and truthy), set
`container` when a container token is given (and truthy). -/
def buildLookupUrl (maxResults : Nat) (query : Option (List Char))
    (container : Option (List Char)) : LookupUrl :=
  let ps := paramsSet LOOKUP_PARAMS (strL "maxResults") (strL (Nat.repr maxResults))
  let ps :=
    match query with
    | some q => if q = [] then ps else paramsSet ps (strL "text") q
    | none => ps
  let ps :=
    match container with
    | some c => if c = [] then ps else paramsSet ps (strL "container") c
    | none => ps
  ⟨LOOKUP_ENDPOINT, ps⟩

/-- `splitPrimaryTextSegments`: split on commas; the trimmed first
segment (or `none` if falsy), and the remaining segments trimmed,
cleared of empties and rejoined with `", "` (or `none` if empty). -/
def splitPrimaryTextSegments (text : List Char) :
    Option (List Char) × Option (List Char) :=
  if text = [] then (none, none)
  else
    let parts := text.splitOn ','
    let leading := trimChars (parts.headD [])
    let remainder :=
      List.intercalate (strL ", ") ((parts.tail.map trimChars).filter (· ≠ []))
    (if leading = [] then none else some leading,
     if remainder = [] then none else some remainder)

def isSubbuildingLocation (type : Option (List Char)) : Bool :=
  type = some (strL "address.residential.subbuilding.name")

def isBusinessLocation (type : Option (List Char)) : Bool :=
  type = some (strL "address.business")

structure Address where
  address1 : List Char
  address2 : Option (List Char)
  company : Option (List Char)
  city : List Char
  zip : List Char
  countryCode : List Char
deriving DecidableEq, Repr

/-- The structured address derived in the direct-apply branch of
`handleSelectSuggestion` (lines 197-222 of `Swiftcomplete.tsx`). -/
def deriveAddress (place : Location) : Address :=
  let primaryText := place.primary.text
  let address1 :=
    let tr := trimChars primaryText
    if tr = [] then primaryText else tr
  let (address2, company, address1) :=
    if isSubbuildingLocation place.type then
      let p := splitPrimaryTextSegments primaryText
      (p.1, (none : Option (List Char)),
        match p.2 with
        | some remainder => remainder
        | none => address1)
    else if isBusinessLocation place.type then
      let p := splitPrimaryTextSegments primaryText
      ((none : Option (List Char)), p.1,
        match p.2 with
        | some remainder => remainder
        | none => address1)
    else (none, none, address1)
  let cityZip :=
    ((place.secondary.text.splitOn ',').map trimChars).filter (· ≠ [])
  { address1 := address1
    address2 := address2
    company := company
    city := cityZip.headD []
    zip := (cityZip.drop 1).headD []
    countryCode := place.countryCode }

/-- Outcome of a lookup `fetch`: a parsed result list, or a network
error / non-2xx response. -/
inductive FetchResult where
  | ok (data : List Location)
  | err
deriving DecidableEq, Repr

/-- Outcome of the `applyShippingAddressChange` collaborator: the
promise resolves (with a result object that may report validation
errors), or it rejects (throws). -/
inductive ApplyResult where
  | resolved (isError : Bool)
  | threw
deriving DecidableEq, Repr

def applyUnavailableBanner : Banner :=
  ⟨.critical, strL "Address updates are not available right now."⟩

def containerEmptyBanner : Banner :=
  ⟨.critical,
    strL "We couldn\u2019t find addresses for that location. Try another suggestion."⟩

def containerFailedBanner : Banner :=
  ⟨.critical,
    strL "We couldn\u2019t expand that result. Please try a different option."⟩

def applySuccessBanner : Banner :=
  ⟨.success, strL "Address applied to the checkout."⟩

def applyFailedBanner : Banner :=
  ⟨.critical,
    strL "Something went wrong while applying the address. Please try again."⟩

def lookupFailedBanner : Banner :=
  ⟨.critical, strL "We couldn\u2019t fetch address suggestions. Try again shortly."⟩

/-- Result of running `handleSelectSuggestion`: the final controller
state, the container-expansion lookup URL if one was fetched, and the
address handed to the apply collaborator if it was called. -/
structure SelectOutcome where
  state : ControllerState
  containerLookup : Option LookupUrl
  applyCall : Option Address
deriving DecidableEq, Repr

/-- `handleSelectSuggestion`, with the outcomes of the (at most one)
container fetch and apply call supplied as arguments. Mirrors lines
150-247 of `Swiftcomplete.tsx`: the early unavailable-collaborator
return, the container branch with its `try/catch/finally`, and the
direct-apply branch with its address derivation and `try/catch/finally`.
Note the resolved value of the apply call is not inspected. -/
def handleSelectSuggestion (applyAvailable : Bool) (place : Location)
    (containerRes : FetchResult) (applyRes : ApplyResult)
    (s : ControllerState) : SelectOutcome :=
  if !applyAvailable then
    { state := { s with statusBanner := some applyUnavailableBanner }
      containerLookup := none
      applyCall := none }
  else
    let selectionKey := getLocationKey place
    let s := { s with selectionState := .pending selectionKey }
    if place.isContainer && !place.container.isEmpty then
      let s := { s with isSearching := true }
      let url := buildLookupUrl 100 none (some place.container)
      let s :=
        match containerRes with
        | .ok data =>
            if data.isEmpty then
              { s with statusBanner := some containerEmptyBanner }
            else { s with suggestions := data, panelOpen := true }
        | .err => { s with statusBanner := some containerFailedBanner }
      { state := { s with isSearching := false, selectionState := .idle }
        containerLookup := some url
        applyCall := none }
    else
      let addr := deriveAddress place
      let s :=
        match applyRes with
        | .resolved _ => { s with statusBanner := some applySuccessBanner }
        | .threw => { s with statusBanner := some applyFailedBanner }
      { state := { s with selectionState := .settled selectionKey }
        containerLookup := none
        applyCall := some addr }

/-! ## The debounced search effect and its supersession discipline -/

/-- The synchronous part of the `useSignalEffect` body (lines 94-110 of
`Swiftcomplete.tsx`): trim, short-query guard, else mark searching,
clear the banner and schedule the debounce timer. Returns the new state
and the query the scheduled timer will fetch for (`none` when no timer
was scheduled). -/
def searchEffectSync (s : ControllerState) : ControllerState × Option (List Char) :=
  let trimmedValue := trimChars s.inputValue
  if trimmedValue.length < MIN_QUERY_LENGTH then
    ({ s with suggestions := [], panelOpen := false, isSearching := false,
              selectionState := .idle }, none)
  else
    ({ s with isSearching := true, statusBanner := none }, some trimmedValue)

/-- The continuation of the debounced fetch (lines 115-140): the guarded
writes of the `try`/`catch` followed by the `finally`. `disposed` and
`aborted` are the values of the effect's `disposed` flag and the
request's abort signal when the continuation runs; `sameRef` is whether
`abortRef` still points at this request's controller in the `finally`. -/
def fetchContinuation (disposed aborted sameRef : Bool) (ok : Bool)
    (data : List Location) (s : ControllerState) : ControllerState :=
  let s1 :=
    if ok then
      if disposed || aborted then s
      else { s with suggestions := data, panelOpen := decide (0 < data.length) }
    else
      if disposed || aborted then s
      else { s with suggestions := [], panelOpen := false,
                    statusBanner := some lookupFailedBanner }
  if !disposed && sameRef then { s1 with isSearching := false } else s1

/-- Bookkeeping for one run ("generation") of the search effect: whether
its cleanup has run, whether its debounce timer is still pending, and
whether its fetch is in flight / was aborted. -/
structure GenInfo where
  disposed : Bool
  timerPending : Bool
  fetching : Bool
  aborted : Bool
deriving DecidableEq, Repr

def GenInfo.initial : GenInfo := ⟨false, false, false, false⟩

/-- The whole system: the controller state, the index of the current
(latest) effect generation, and the bookkeeping of every generation. -/
structure Sys where
  ctrl : ControllerState
  cur : Nat
  info : Nat → GenInfo

/-- The asynchronous events the host event loop can deliver: a keystroke
(`input`), a debounce timer firing for generation `g`, and the fetch of
generation `g` completing with `ok`/`data`. -/
inductive Ev where
  | input (v : List Char)
  | timerFire (g : Nat)
  | fetchDone (g : Nat) (ok : Bool) (data : List Location)

/-- One step of the event loop.

* `input v`: the previous effect generation is disposed first (its
  `disposed` flag set, its timer cleared, its in-flight fetch aborted —
  the effect cleanup on lines 142-147), then `handleInput` runs (lines
  249-254), then the effect body re-runs for a fresh generation.
* `timerFire g`: if generation `g`'s timer is still pending and it was
  not disposed, its fetch starts (`abortRef` now points at it).
* `fetchDone g ok data`: if generation `g` has a fetch in flight, its
  continuation runs with its recorded `disposed`/`aborted` flags;
  `abortRef` still points at this fetch exactly when the generation was
  not disposed. -/
def step (s : Sys) (e : Ev) : Sys :=
  match e with
  | .input v =>
      let info1 := fun g =>
        if g = s.cur then
          { s.info g with disposed := true, timerPending := false, aborted := true }
        else s.info g
      let c1 := { s.ctrl with inputValue := v, selectionState := .idle,
                              statusBanner := none }
      let r := searchEffectSync c1
      let newCur := s.cur + 1
      { ctrl := r.1
        cur := newCur
        info := fun g =>
          if g = newCur then { GenInfo.initial with timerPending := r.2.isSome }
          else info1 g }
  | .timerFire g =>
      if (s.info g).timerPending then
        if (s.info g).disposed then
          { s with info := fun h =>
              if h = g then { s.info g with timerPending := false } else s.info h }
        else
          { s with info := fun h =>
              if h = g then
                { s.info g with timerPending := false, fetching := true,
                                aborted := false }
              else s.info h }
      else s
  | .fetchDone g ok data =>
      if (s.info g).fetching then
        let i := s.info g
        { ctrl := fetchContinuation i.disposed i.aborted (!i.disposed) ok data s.ctrl
          cur := s.cur
          info := fun h => if h = g then { i with fetching := false } else s.info h }
      else s

/-- The system at mount: generation 0 has run the effect body once on
the empty input (taking the short-query branch, so no timer). -/
def initSys : Sys :=
  let r := searchEffectSync initController
  { ctrl := r.1
    cur := 0
    info := fun g =>
      if g = 0 then { GenInfo.initial with timerPending := r.2.isSome }
      else GenInfo.initial }

/-- Run a sequence of events from the mounted system. -/
def runEvents (evs : List Ev) : Sys := evs.foldl step initSys

/-! ## Suggestion list marking (`SuggestionList.tsx`) -/

/-- Active-suggestion marking in `SuggestionList`:
`activeSuggestionKey === suggestionId`. -/
def isActiveMark (activeSuggestionKey : Option (List Char)) (l : Location) : Bool :=
  activeSuggestionKey == some (getLocationKey l)

/-- Selected-suggestion marking in `SuggestionList`:
`selectedSuggestionKey === suggestionId`. -/
def isSelectedMark (selectedSuggestionKey : Option (List Char)) (l : Location) : Bool :=
  selectedSuggestionKey == some (getLocationKey l)

/-! ## Specification-side predicates and fixtures -/

/-- Well-formedness of a flat highlight-offsets list, relative to a
cursor: each pair is ordered, starts at or after the cursor, and ends
inside the text; a trailing single offset stands for the pair `(s, s)`.
This is the "sorted, non-overlapping, within bounds" condition of the
specification. -/
def wfChain (len : Int) : Int → List Int → Bool
  | _, [] => true
  | c, [s] => decide (c ≤ s) && decide (s + 1 ≤ len)
  | c, s :: e :: rest =>
      decide (c ≤ s) && decide (s ≤ e) && decide (e + 1 ≤ len) &&
        wfChain len (e + 1) rest

/-- Every generation older than the current one has been disposed. -/
def SysInv (s : Sys) : Prop := ∀ g, g < s.cur → (s.info g).disposed = true

/-- A plain (non-container) lookup result used as a concrete fixture. -/
def leafPlace : Location :=
  { type := none, isContainer := false, container := []
    primary := ⟨strL "10 Main Street", []⟩
    secondary := ⟨strL "Leeds, LS1 4AB", []⟩
    countryCode := strL "GB" }

/-- A container lookup result used as a concrete fixture. -/
def containerPlace : Location :=
  { type := none, isContainer := true, container := strL "abc"
    primary := ⟨strL "High Street", []⟩
    secondary := ⟨strL "Leeds", []⟩
    countryCode := strL "GB" }

/-- A sub-building-typed lookup result with the given primary text. -/
def mkSubbuilding (t : List Char) : Location :=
  { type := some (strL "address.residential.subbuilding.name")
    isContainer := false, container := []
    primary := ⟨t, []⟩
    secondary := ⟨strL "Leeds, LS1 4AB", []⟩
    countryCode := strL "GB" }

/-- A fixture sharing `leafPlace`'s display texts but differing in every
other field. -/
def leafPlaceTagged : Location :=
  { type := some (strL "address.business"), isContainer := true
    container := strL "zzz"
    primary := ⟨strL "10 Main Street", [0, 1]⟩
    secondary := ⟨strL "Leeds, LS1 4AB", []⟩
    countryCode := strL "FR" }

end Swiftcomplete

namespace Spec2Proof

open Swiftcomplete

/-! ## Helper lemmas -/

theorem pairs_ind {P : List Int → Prop} (h0 : P []) (h1 : ∀ s, P [s])
    (h2 : ∀ s e rest, P rest → P (s :: e :: rest)) : ∀ l, P l
  | [] => h0
  | [s] => h1 s
  | s :: e :: rest => h2 s e rest (pairs_ind h0 h1 h2 rest)

theorem sliceL_append (t : List Char) (a b c : Nat) (hab : a ≤ b) (hbc : b ≤ c) :
    sliceL t a b ++ sliceL t b c = sliceL t a c := by
  unfold sliceL
  rw [show t.take b = (t.take c).take b from by
    rw [List.take_take, Nat.min_eq_left hbc]]
  generalize t.take c = u
  by_cases h : a ≤ (u.take b).length
  · conv_rhs => rw [← List.take_append_drop b u]
    rw [List.drop_append_of_le_length h]
  · have hlen : (u.take b).length = min b u.length := by simp
    have hua : u.length < a := by omega
    rw [List.drop_eq_nil_of_le (by omega : (u.take b).length ≤ a),
      List.drop_eq_nil_of_le (le_of_lt hua),
      List.drop_eq_nil_of_le (by omega : u.length ≤ b)]
    rfl

theorem sliceL_self (t : List Char) (a : Nat) : sliceL t a a = [] := by
  unfold sliceL
  exact List.drop_eq_nil_of_le (by simp)

theorem segsConcat_append (a b : List Segment) :
    segsConcat (a ++ b) = segsConcat a ++ segsConcat b := by
  simp [segsConcat]

theorem clamp_eval (len : Nat) (c : Nat) (s e : Int)
    (hcs : (c : Int) ≤ s) (hse : s ≤ e) (hel : e + 1 ≤ (len : Int)) :
    clampStart len s = s.toNat ∧ clampEnd len s.toNat e = (e + 1).toNat := by
  unfold clampStart clampEnd
  omega

theorem pairSegs_concat (t : List Char) (c : Nat) (s e : Int)
    (hcs : (c : Int) ≤ s) (hse : s ≤ e) (hel : e + 1 ≤ (t.length : Int)) :
    segsConcat (pairSegs t c s e).1 = sliceL t c ((pairSegs t c s e).2) ∧
    c ≤ (pairSegs t c s e).2 ∧ (pairSegs t c s e).2 ≤ t.length := by
  obtain ⟨h1, h2⟩ := clamp_eval t.length c s e hcs hse hel
  have hc_le : c ≤ s.toNat := by omega
  have hs_le : s.toNat ≤ (e + 1).toNat := by omega
  have he_le : (e + 1).toNat ≤ t.length := by omega
  unfold pairSegs
  simp only [h1, h2]
  refine ⟨?_, by omega, by omega⟩
  by_cases hlt : c < s.toNat
  · rw [if_pos hlt]
    by_cases hlt2 : s.toNat < (e + 1).toNat
    · rw [if_pos hlt2]
      show sliceL t c s.toNat ++ (sliceL t s.toNat (e + 1).toNat ++ []) = _
      rw [List.append_nil]
      exact sliceL_append t c s.toNat (e + 1).toNat hc_le hs_le
    · have : s.toNat = (e + 1).toNat := by omega
      rw [if_neg hlt2, this]
      show sliceL t c (e + 1).toNat ++ [] = _
      rw [List.append_nil]
  · have hceq : c = s.toNat := by omega
    rw [if_neg hlt]
    by_cases hlt2 : s.toNat < (e + 1).toNat
    · rw [if_pos hlt2]
      show [] ++ (sliceL t s.toNat (e + 1).toNat ++ []) = _
      rw [List.nil_append, List.append_nil, hceq]
    · have : s.toNat = (e + 1).toNat := by omega
      rw [if_neg hlt2]
      show segsConcat [] = _
      rw [← this, ← hceq, sliceL_self]
      rfl

theorem pairSegs_snd (t : List Char) (c : Nat) (s e : Int)
    (hcs : (c : Int) ≤ s) (hse : s ≤ e) (hel : e + 1 ≤ (t.length : Int)) :
    (pairSegs t c s e).2 = (e + 1).toNat := by
  obtain ⟨h1, h2⟩ := clamp_eval t.length c s e hcs hse hel
  unfold pairSegs
  simp only [h1, h2]

theorem loop_concat (t : List Char) : ∀ hs : List Int, ∀ c : Nat,
    wfChain (t.length : Int) (c : Int) hs = true →
    segsConcat (offsetsLoop t hs c).1 = sliceL t c ((offsetsLoop t hs c).2) ∧
    c ≤ (offsetsLoop t hs c).2 := by
  intro hs
  induction hs using pairs_ind with
  | h0 =>
      intro c _
      simp only [offsetsLoop]
      rw [sliceL_self]
      exact ⟨rfl, le_refl c⟩
  | h1 s =>
      intro c hwf
      simp only [wfChain, Bool.and_eq_true, decide_eq_true_eq] at hwf
      obtain ⟨h1, h2⟩ := hwf
      simp only [offsetsLoop]
      exact ⟨(pairSegs_concat t c s s h1 le_rfl h2).1,
        (pairSegs_concat t c s s h1 le_rfl h2).2.1⟩
  | h2 s e rest ih =>
      intro c hwf
      simp only [wfChain, Bool.and_eq_true, decide_eq_true_eq] at hwf
      obtain ⟨⟨⟨h1, h2⟩, h3⟩, h4⟩ := hwf
      have hp := pairSegs_concat t c s e h1 h2 h3
      have hsnd := pairSegs_snd t c s e h1 h2 h3
      have hcast : (((e + 1).toNat : Nat) : Int) = e + 1 := by omega
      have hq := ih ((e + 1).toNat) (by rw [hcast]; exact h4)
      simp only [offsetsLoop]
      rw [segsConcat_append, hsnd]
      rw [hsnd] at hp
      constructor
      · rw [hp.1, (hq).1]
        exact sliceL_append t c ((e + 1).toNat)
          ((offsetsLoop t rest ((e + 1).toNat)).2) hp.2.1 hq.2
      · have := hp.2.1
        have := hq.2
        omega

theorem offsetsSegments_concat (t : List Char) (hs : List Int)
    (h : wfChain (t.length : Int) 0 hs = true) :
    segsConcat (offsetsSegments t hs) = t := by
  have hl := loop_concat t hs 0 (by exact_mod_cast h)
  unfold offsetsSegments
  rw [segsConcat_append]
  have hslice : sliceL t 0 ((offsetsLoop t hs 0).2) = t.take ((offsetsLoop t hs 0).2) := by
    unfold sliceL
    rw [List.drop_zero]
  by_cases hlt : (offsetsLoop t hs 0).2 < t.length
  · rw [if_pos hlt, hl.1, hslice]
    show t.take _ ++ (t.drop _ ++ []) = t
    rw [List.append_nil, List.take_append_drop]
  · rw [if_neg hlt, hl.1, hslice]
    show List.take _ t ++ [] = t
    rw [List.append_nil]
    exact List.take_of_length_le (by omega)

theorem isPrefixOf_length_le : ∀ (a b : List Char), a.isPrefixOf b = true →
    a.length ≤ b.length
  | [], _, _ => by simp
  | _ :: _, [], h => by simp [List.isPrefixOf] at h
  | _ :: as, _ :: bs, h => by
      simp only [List.isPrefixOf, Bool.and_eq_true] at h
      have := isPrefixOf_length_le as bs h.2
      simp only [List.length_cons]
      omega

theorem findSub_some_prefix (n : List Char) :
    ∀ (h : List Char) (i : Nat), findSub n h = some i →
      n.isPrefixOf (h.drop i) = true := by
  intro h
  induction h with
  | nil =>
      intro i hi
      unfold findSub at hi
      split at hi
      · cases hi
        simpa using ‹n.isPrefixOf [] = true›
      · cases hi
  | cons c rest ih =>
      intro i hi
      unfold findSub at hi
      split at hi
      · cases hi
        simpa using ‹n.isPrefixOf (c :: rest) = true›
      · rw [Option.map_eq_some'] at hi
        obtain ⟨j, hj, hij⟩ := hi
        subst hij
        simpa using ih j hj

theorem findSub_some_min (n : List Char) :
    ∀ (h : List Char) (i : Nat), findSub n h = some i →
      ∀ j < i, n.isPrefixOf (h.drop j) = false := by
  intro h
  induction h with
  | nil =>
      intro i hi
      unfold findSub at hi
      split at hi
      · cases hi
        intro j hj
        omega
      · cases hi
  | cons c rest ih =>
      intro i hi
      unfold findSub at hi
      split at hi
      · cases hi
        intro j hj
        omega
      · rw [Option.map_eq_some'] at hi
        obtain ⟨k, hk, hik⟩ := hi
        subst hik
        intro j hj
        cases j with
        | zero =>
            simpa using Bool.of_not_eq_true ‹¬n.isPrefixOf (c :: rest) = true›
        | succ j' =>
            simpa using ih k hk j' (by omega)

theorem findSub_none_all (n : List Char) :
    ∀ (h : List Char), findSub n h = none →
      ∀ j, n.isPrefixOf (h.drop j) = false := by
  intro h
  induction h with
  | nil =>
      intro hn j
      unfold findSub at hn
      split at hn
      · cases hn
      · simpa using Bool.of_not_eq_true ‹¬n.isPrefixOf [] = true›
  | cons c rest ih =>
      intro hn j
      unfold findSub at hn
      split at hn
      · cases hn
      · cases j with
        | zero =>
            simpa using Bool.of_not_eq_true ‹¬n.isPrefixOf (c :: rest) = true›
        | succ j' =>
            have : findSub n rest = none := by
              cases hr : findSub n rest
              · rfl
              · rw [hr] at hn
                cases hn
            simpa using ih this j'

theorem findSub_some_le (n : List Char) :
    ∀ (h : List Char) (i : Nat), findSub n h = some i → i + n.length ≤ h.length := by
  intro h i hi
  have hp := findSub_some_prefix n h i hi
  have hle := isPrefixOf_length_le n (h.drop i) hp
  rw [List.length_drop] at hle
  have hbound : ∀ (h' : List Char) (i' : Nat), findSub n h' = some i' → i' ≤ h'.length := by
    intro h'
    induction h' with
    | nil =>
        intro i' hi'
        unfold findSub at hi'
        split at hi'
        · cases hi'
          exact Nat.le_refl 0
        · cases hi'
    | cons c rest ih =>
        intro i' hi'
        unfold findSub at hi'
        split at hi'
        · cases hi'
          simp
        · rw [Option.map_eq_some'] at hi'
          obtain ⟨k, hk, hik⟩ := hi'
          subst hik
          have := ih k hk
          simp
          omega
  have := hbound h i hi
  omega

theorem fallbackSegments_cases (t q : List Char) :
    fallbackSegments t q = [] ∨ segsConcat (fallbackSegments t q) = t := by
  by_cases hq : 0 < (trimChars q).length
  · cases hfind : findSub ((trimChars q).map Char.toLower) (t.map Char.toLower) with
    | none =>
        left
        unfold fallbackSegments
        simp only [if_pos hq, hfind]
    | some i =>
        right
        have hunf : fallbackSegments t q =
            (if 0 < i then [⟨t.take i, false⟩] else []) ++
            [⟨sliceL t i (i + (trimChars q).length), true⟩] ++
            (if i + (trimChars q).length < t.length then
              [⟨t.drop (i + (trimChars q).length), false⟩] else []) := by
          unfold fallbackSegments
          simp only [if_pos hq, hfind]
        have hbound := findSub_some_le _ _ _ hfind
        rw [List.length_map, List.length_map] at hbound
        have htake : sliceL t 0 i = t.take i := by
          unfold sliceL
          rw [List.drop_zero]
        have hdrop : sliceL t (i + (trimChars q).length) t.length =
            t.drop (i + (trimChars q).length) := by
          unfold sliceL
          rw [List.take_length]
        have hconcat : t.take i ++ (sliceL t i (i + (trimChars q).length) ++
            t.drop (i + (trimChars q).length)) = t := by
          rw [← htake, ← hdrop,
            sliceL_append t i (i + (trimChars q).length) t.length (by omega) (by omega),
            sliceL_append t 0 i t.length (by omega) (by omega)]
          unfold sliceL
          rw [List.take_length, List.drop_zero]
        have hA : segsConcat (if 0 < i then [(⟨t.take i, false⟩ : Segment)] else []) =
            t.take i := by
          by_cases h0 : 0 < i
          · rw [if_pos h0]
            show t.take i ++ [] = t.take i
            rw [List.append_nil]
          · rw [if_neg h0]
            have hi0 : i = 0 := by omega
            subst hi0
            rfl
        have hB : segsConcat (if i + (trimChars q).length < t.length then
            [(⟨t.drop (i + (trimChars q).length), false⟩ : Segment)] else []) =
            t.drop (i + (trimChars q).length) := by
          by_cases hend : i + (trimChars q).length < t.length
          · rw [if_pos hend]
            show t.drop (i + (trimChars q).length) ++ [] = _
            rw [List.append_nil]
          · rw [if_neg hend]
            exact (List.drop_eq_nil_of_le (by omega)).symm
        have hM : segsConcat [(⟨sliceL t i (i + (trimChars q).length), true⟩ : Segment)] =
            sliceL t i (i + (trimChars q).length) := by
          show _ ++ [] = _
          rw [List.append_nil]
        rw [hunf, segsConcat_append, segsConcat_append, hA, hB, hM,
          List.append_assoc]
        exact hconcat
  · left
    unfold fallbackSegments
    simp only [if_neg hq]

theorem takeWhile_space_append (lead rest : List Char) (h : ∀ c ∈ lead, c = ' ') :
    (lead ++ rest).takeWhile (· = ' ') = lead ++ rest.takeWhile (· = ' ') := by
  induction lead with
  | nil => simp
  | cons a l ih =>
      have ha : a = ' ' := h a (List.mem_cons_self a l)
      subst ha
      rw [List.cons_append, List.takeWhile_cons]
      simp only [decide_eq_true_eq, if_true, eq_self_iff_true]
      rw [ih (fun c hc => h c (List.mem_cons_of_mem _ hc))]
      rfl

theorem takeWhile_space_nonspace_head (m : List Char) (hne : m ≠ [])
    (hfirst : m.head? ≠ some ' ') (rest : List Char) :
    (m ++ rest).takeWhile (· = ' ') = [] := by
  obtain ⟨a, l, rfl⟩ := List.exists_cons_of_ne_nil hne
  have ha : a ≠ ' ' := by
    intro h0
    apply hfirst
    rw [h0]
    rfl
  rw [List.cons_append, List.takeWhile_cons]
  simp [ha]

theorem trimChars_all_space (sp : List Char) (h : ∀ c ∈ sp, c = ' ') :
    trimChars sp = [] := by
  unfold trimChars
  have h1 : sp.dropWhile Char.isWhitespace = [] := by
    rw [List.dropWhile_eq_nil_iff]
    intro c hc
    rw [h c hc]
    decide
  rw [h1]
  rfl

theorem splitOn_headD_takeWhile (t : List Char) :
    (t.splitOn ',').headD [] = t.takeWhile (fun c => c ≠ ',') := by
  induction t with
  | nil => rfl
  | cons a tl ih =>
    by_cases ha : a = ','
    · subst ha
      simp [List.splitOn, List.splitOnP_cons, List.takeWhile]
    · have hsplit : (a :: tl).splitOn ',' =
          ((tl.splitOnP (· == ',')).modifyHead (List.cons a)) := by
        rw [show ((a :: tl).splitOn ',') = ((a :: tl).splitOnP (· == ',')) from rfl,
          List.splitOnP_cons]
        simp [ha]
      obtain ⟨h, l, hl⟩ := List.exists_cons_of_ne_nil (List.splitOnP_ne_nil (· == ',') tl)
      rw [hsplit, hl, List.modifyHead]
      have ih2 : h = tl.takeWhile (fun c => c ≠ ',') := by
        rw [show (tl.splitOn ',') = tl.splitOnP (· == ',') from rfl, hl] at ih
        exact ih
      simp [List.takeWhile, ha, ih2]

theorem buildLookupUrl_container_eq (c : List Char) (hc : c ≠ []) :
    buildLookupUrl 100 none (some c) =
      ⟨LOOKUP_ENDPOINT,
        LOOKUP_PARAMS ++ [(strL "maxResults", strL "100"), (strL "container", c)]⟩ := by
  have hany1 : (LOOKUP_PARAMS.any fun p => decide (p.1 = strL "maxResults")) = false := by
    decide
  have hany2 : ((LOOKUP_PARAMS ++ [(strL "maxResults", strL "100")]).any
      fun p => decide (p.1 = strL "container")) = false := by decide
  have h100 : strL (Nat.repr 100) = strL "100" := by decide
  simp [buildLookupUrl, paramsSet, hany1, hany2, hc, h100]

theorem sysInv_init : SysInv initSys := by
  intro g hg
  simp only [initSys] at hg
  omega

theorem sysInv_step (s : Sys) (e : Ev) (h : SysInv s) : SysInv (step s e) := by
  cases e with
  | input v =>
      intro g hg
      simp only [step] at hg ⊢
      have hgne : g ≠ s.cur + 1 := by omega
      rw [if_neg hgne]
      by_cases hc : g = s.cur
      · rw [if_pos hc]
      · rw [if_neg hc]
        exact h g (by omega)
  | timerFire g' =>
      intro g hg
      simp only [step] at hg ⊢
      by_cases hp : (s.info g').timerPending
      · rw [if_pos hp] at hg ⊢
        by_cases hd : (s.info g').disposed
        · rw [if_pos hd] at hg ⊢
          by_cases hgg : g = g'
          · subst hgg
            simp only [if_pos rfl]
            exact h g hg
          · simp only [if_neg hgg]
            exact h g hg
        · rw [if_neg hd] at hg ⊢
          by_cases hgg : g = g'
          · subst hgg
            simp only [if_pos rfl]
            exact h g hg
          · simp only [if_neg hgg]
            exact h g hg
      · rw [if_neg hp] at hg ⊢
        exact h g hg
  | fetchDone g' ok data =>
      intro g hg
      simp only [step] at hg ⊢
      by_cases hf : (s.info g').fetching
      · rw [if_pos hf] at hg ⊢
        by_cases hgg : g = g'
        · subst hgg
          simp only [if_pos rfl]
          exact h g hg
        · simp only [if_neg hgg]
          exact h g hg
      · rw [if_neg hf] at hg ⊢
        exact h g hg

theorem sysInv_run (evs : List Ev) : SysInv (runEvents evs) := by
  have main : ∀ (l : List Ev) (s : Sys), SysInv s → SysInv (l.foldl step s) := by
    intro l
    induction l with
    | nil =>
        intro s hs
        exact hs
    | cons e l ih =>
        intro s hs
        exact ih (step s e) (sysInv_step s e hs)
  exact main evs initSys sysInv_init

theorem fetchContinuation_disposed (a r ok : Bool) (data : List Location)
    (s : ControllerState) : fetchContinuation true a r ok data s = s := by
  simp [fetchContinuation]

/-! ## The claims -/

/-- Claim C1: a primary-search fetch that has been superseded by a newer
input change (its effect generation disposed — which clears its debounce
timer and fires its abort handle) never writes its results into
`suggestions`, never changes `panelOpen`, and never surfaces an error
banner: after any event trace, delivering the completion of a fetch
belonging to any generation but the current one leaves those three
controller fields unchanged, whatever the fetch outcome was. -/
theorem superseded_fetch_never_updates_state (evs : List Ev) (g : Nat) (ok : Bool)
    (data : List Location) (hg : g < (runEvents evs).cur) :
    (step (runEvents evs) (.fetchDone g ok data)).ctrl.suggestions
        = (runEvents evs).ctrl.suggestions ∧
    (step (runEvents evs) (.fetchDone g ok data)).ctrl.panelOpen
        = (runEvents evs).ctrl.panelOpen ∧
    (step (runEvents evs) (.fetchDone g ok data)).ctrl.statusBanner
        = (runEvents evs).ctrl.statusBanner := by
  have hd : ((runEvents evs).info g).disposed = true := sysInv_run evs g hg
  simp only [step]
  by_cases hf : ((runEvents evs).info g).fetching
  · rw [if_pos hf]
    simp [hd, fetchContinuation_disposed]
  · rw [if_neg hf]
    exact ⟨rfl, rfl, rfl⟩

theorem superseded_fetch_witness :
    0 < (runEvents [.input (strL "Main Street")]).cur ∧
    ((step (runEvents [.input (strL "Main Street")])
        (.fetchDone 0 true [containerPlace])).ctrl.suggestions
        = (runEvents [.input (strL "Main Street")]).ctrl.suggestions ∧
     (step (runEvents [.input (strL "Main Street")])
        (.fetchDone 0 true [containerPlace])).ctrl.panelOpen
        = (runEvents [.input (strL "Main Street")]).ctrl.panelOpen ∧
     (step (runEvents [.input (strL "Main Street")])
        (.fetchDone 0 true [containerPlace])).ctrl.statusBanner
        = (runEvents [.input (strL "Main Street")]).ctrl.statusBanner) :=
  ⟨by decide, superseded_fetch_never_updates_state [.input (strL "Main Street")] 0 true
      [containerPlace] (by decide)⟩

/-- Claim C2 counterexample: the renderer does emit an all-space segment
(the gap `" "` between the two highlighted letters of `"a b"` under
offsets `[0,0,2,2]`), and the canonical display post-processing turns
the one-space value into two non-breaking spaces, so replacing each
non-breaking space by a space gives `"  "`, not the original `" "`; the
`isWhitespaceOnly` variant instead converts it once. -/
theorem display_space_run_doubles_cex :
    Segment.mk (strL " ") false ∈ highlightSegments (strL "a b") (some [0, 0, 2, 2]) none ∧
    displayValue (strL " ") = [nbsp, nbsp] ∧
    undoNbsp (displayValue (strL " ")) = strL "  " ∧
    strL "  " ≠ strL " " ∧
    displayValueWsOnly (strL " ") = [nbsp] := by
  decide

/-- Claim C2 (amended): for every segment value made of a leading run of
spaces, a non-empty middle that neither starts nor ends with a space and
contains no pre-existing non-breaking space, and a trailing run of
spaces, the canonical display post-processing converts exactly the two
runs to non-breaking spaces, and replacing each non-breaking space by a
space recovers the original; an empty value displays as exactly one
non-breaking space; but a non-empty all-space value displays with its
spaces doubled (2·n non-breaking spaces), while the `isWhitespaceOnly`
variant (src/unnamed/part_002) converts such a value once. -/
theorem display_roundtrip_amended (lead middle trail : List Char)
    (hlead : ∀ c ∈ lead, c = ' ')
    (htrail : ∀ c ∈ trail, c = ' ')
    (hne : middle ≠ [])
    (hfirst : middle.head? ≠ some ' ')
    (hlast : middle.getLast? ≠ some ' ')
    (hnb : nbsp ∉ middle) :
    displayValue (lead ++ middle ++ trail) =
      lead.map (fun _ => nbsp) ++ middle ++ trail.map (fun _ => nbsp) ∧
    undoNbsp (displayValue (lead ++ middle ++ trail)) = lead ++ middle ++ trail ∧
    displayValue [] = [nbsp] ∧
    (∀ sp : List Char, (∀ c ∈ sp, c = ' ') → sp ≠ [] →
      displayValue sp = List.replicate (2 * sp.length) nbsp ∧
      displayValueWsOnly sp = List.replicate sp.length nbsp) := by
  have hA : (lead ++ middle ++ trail).takeWhile (· = ' ') = lead := by
    rw [List.append_assoc, takeWhile_space_append lead (middle ++ trail) hlead,
      takeWhile_space_nonspace_head middle hne hfirst trail, List.append_nil]
  have hB : ((lead ++ middle ++ trail).reverse.takeWhile (· = ' ')).reverse = trail := by
    have hrev : (lead ++ middle ++ trail).reverse =
        trail.reverse ++ (middle.reverse ++ lead.reverse) := by
      rw [List.reverse_append, List.reverse_append]
    rw [hrev,
      takeWhile_space_append _ _ (fun c hc => htrail c (List.mem_reverse.mp hc)),
      takeWhile_space_nonspace_head middle.reverse (by simp [hne])
        (by rw [List.head?_reverse]; exact hlast) lead.reverse,
      List.append_nil, List.reverse_reverse]
  have hC : ((lead ++ middle ++ trail).take
      ((lead ++ middle ++ trail).length - trail.length)).drop lead.length = middle := by
    have h1 : (lead ++ middle ++ trail).length - trail.length = (lead ++ middle).length := by
      simp
      omega
    rw [h1, List.take_left, List.drop_left]
  have hd : displayValue (lead ++ middle ++ trail) =
      lead.map (fun _ => nbsp) ++ middle ++ trail.map (fun _ => nbsp) := by
    unfold displayValue
    simp only [hA, hB, hC]
    rw [if_neg]
    simp [List.append_eq_nil, hne]
  have p1 : ∀ (l : List Char), (∀ c ∈ l, c = ' ') →
      (l.map (fun _ => nbsp)).map (fun c => if c = nbsp then ' ' else c) = l := by
    intro l hl
    rw [List.map_map]
    have hcomp : ((fun c => if c = nbsp then ' ' else c) ∘ (fun _ : Char => nbsp)) =
        (fun _ : Char => ' ') := by
      funext c
      simp
    rw [hcomp,
      List.map_congr_left (fun a ha => ((hl a ha).symm : (fun _ : Char => ' ') a = id a)),
      List.map_id']
  have p2 : middle.map (fun c => if c = nbsp then ' ' else c) = middle := by
    have hm : ∀ a ∈ middle, (fun c => if c = nbsp then ' ' else c) a = id a := by
      intro a ha
      have hanb : a ≠ nbsp := fun h0 => hnb (by rw [← h0]; exact ha)
      simp only [id]
      rw [if_neg hanb]
    rw [List.map_congr_left hm, List.map_id]
  have hu : undoNbsp (lead.map (fun _ => nbsp) ++ middle ++ trail.map (fun _ => nbsp)) =
      lead ++ middle ++ trail := by
    unfold undoNbsp
    rw [List.map_append, List.map_append, p1 lead hlead, p2, p1 trail htrail]
  refine ⟨hd, by rw [hd]; exact hu, by decide, ?_⟩
  intro sp hsp hspne
  have hA2 : sp.takeWhile (· = ' ') = sp := by
    simpa using takeWhile_space_append sp [] hsp
  have hB2 : (sp.reverse.takeWhile (· = ' ')).reverse = sp := by
    have h2 : sp.reverse.takeWhile (· = ' ') = sp.reverse := by
      simpa using takeWhile_space_append sp.reverse []
        (fun c hc => hsp c (List.mem_reverse.mp hc))
    rw [h2, List.reverse_reverse]
  constructor
  · unfold displayValue
    simp only [hA2, hB2, Nat.sub_self, List.take_zero, List.drop_nil, List.map_const',
      List.nil_append, List.append_nil]
    rw [if_neg (by
      simp [List.append_eq_nil, List.replicate_eq_nil_iff, List.length_eq_zero, hspne])]
    rw [Nat.two_mul, List.replicate_add]
  · unfold displayValueWsOnly
    rw [if_pos (by rw [trimChars_all_space sp hsp]; rfl)]
    have hmap : sp.map (fun c => if c = ' ' then nbsp else c) =
        sp.map (fun _ => nbsp) := by
      apply List.map_congr_left
      intro a ha
      rw [hsp a ha]
      simp
    rw [hmap, List.map_const']
    rw [if_neg (by simp [List.replicate_eq_nil_iff, List.length_eq_zero, hspne])]

theorem display_roundtrip_witness :
    ((∀ c ∈ strL " ", c = ' ') ∧ (∀ c ∈ strL "  ", c = ' ') ∧ strL "a b" ≠ [] ∧
      (strL "a b").head? ≠ some ' ' ∧ (strL "a b").getLast? ≠ some ' ' ∧
      nbsp ∉ strL "a b") ∧
    undoNbsp (displayValue (strL " " ++ strL "a b" ++ strL "  ")) =
      strL " " ++ strL "a b" ++ strL "  " :=
  ⟨⟨by decide, by decide, by decide, by decide, by decide, by decide⟩,
    (display_roundtrip_amended (strL " ") (strL "a b") (strL "  ") (by decide) (by decide)
      (by decide) (by decide) (by decide) (by decide)).2.1⟩

/-- Claim C3: selecting a Location with `isContainer = true` and a
truthy container token (given the apply collaborator is available, which
the handler checks before either branch) never calls the
apply-shipping-address collaborator; it always issues a follow-up lookup
whose URL carries the container token with no `text` parameter and
`maxResults=100`; on success with non-empty results it replaces
`suggestions` and opens the panel; on empty-but-successful results or on
failure it leaves the prior suggestions (and panel) in place and shows a
critical banner; and in every outcome the selection state returns to
idle and `isSearching` is cleared. -/
theorem container_selection_expands_without_apply (place : Location)
    (s : ControllerState) (containerRes : FetchResult) (applyRes : ApplyResult)
    (hc : place.isContainer = true) (ht : place.container ≠ []) :
    (handleSelectSuggestion true place containerRes applyRes s).applyCall = none ∧
    (∃ u, (handleSelectSuggestion true place containerRes applyRes s).containerLookup
        = some u ∧
      (strL "container", place.container) ∈ u.params ∧
      (strL "maxResults", strL "100") ∈ u.params ∧
      (∀ p ∈ u.params, p.1 ≠ strL "text")) ∧
    (∀ data, containerRes = .ok data → data ≠ [] →
      (handleSelectSuggestion true place containerRes applyRes s).state.suggestions
          = data ∧
      (handleSelectSuggestion true place containerRes applyRes s).state.panelOpen
          = true) ∧
    (containerRes = .ok [] →
      (handleSelectSuggestion true place containerRes applyRes s).state.suggestions
          = s.suggestions ∧
      (handleSelectSuggestion true place containerRes applyRes s).state.panelOpen
          = s.panelOpen ∧
      (handleSelectSuggestion true place containerRes applyRes s).state.statusBanner
          = some containerEmptyBanner) ∧
    (containerRes = .err →
      (handleSelectSuggestion true place containerRes applyRes s).state.suggestions
          = s.suggestions ∧
      (handleSelectSuggestion true place containerRes applyRes s).state.panelOpen
          = s.panelOpen ∧
      (handleSelectSuggestion true place containerRes applyRes s).state.statusBanner
          = some containerFailedBanner) ∧
    (handleSelectSuggestion true place containerRes applyRes s).state.selectionState
        = .idle ∧
    (handleSelectSuggestion true place containerRes applyRes s).state.isSearching
        = false := by
  have hce : place.container.isEmpty = false := by
    simp [List.isEmpty_iff, ht]
  have hurl := buildLookupUrl_container_eq place.container ht
  rcases containerRes with data | _
  · by_cases hd : data = []
    · subst hd
      simp only [handleSelectSuggestion, hc, hce, hurl]
      simp only [Bool.not_true, Bool.false_and, Bool.and_self, if_false]
      refine ⟨by simp, ⟨_, rfl, by simp, by simp, ?_⟩, by simp, by simp, by simp,
        by simp, by simp⟩
      intro p hp
      simp only [List.mem_append, List.mem_cons, List.not_mem_nil, or_false,
        LOOKUP_PARAMS] at hp
      rcases hp with (rfl | rfl | rfl | rfl) | (rfl | rfl) <;>
        first
        | decide
        | (show strL "container" ≠ strL "text"; decide)
    · simp only [handleSelectSuggestion, hc, hce, hurl]
      simp only [Bool.not_true, Bool.false_and, Bool.and_self, if_false]
      refine ⟨by simp, ⟨_, rfl, by simp, by simp, ?_⟩, ?_, by simp [hd], by simp,
        by simp [hd], by simp [hd]⟩
      · intro p hp
        simp only [List.mem_append, List.mem_cons, List.not_mem_nil, or_false,
          LOOKUP_PARAMS] at hp
        rcases hp with (rfl | rfl | rfl | rfl) | (rfl | rfl) <;>
          first
          | decide
          | (show strL "container" ≠ strL "text"; decide)
      · intro d hd2 hne
        cases hd2
        simp [List.isEmpty_iff, hd]
  · simp only [handleSelectSuggestion, hc, hce, hurl]
    simp only [Bool.not_true, Bool.false_and, Bool.and_self, if_false]
    refine ⟨by simp, ⟨_, rfl, by simp, by simp, ?_⟩, by simp, by simp, by simp,
      by simp, by simp⟩
    intro p hp
    simp only [List.mem_append, List.mem_cons, List.not_mem_nil, or_false,
      LOOKUP_PARAMS] at hp
    rcases hp with (rfl | rfl | rfl | rfl) | (rfl | rfl) <;>
      first
      | decide
      | (show strL "container" ≠ strL "text"; decide)

theorem container_selection_witness :
    containerPlace.isContainer = true ∧ containerPlace.container ≠ [] ∧
    (handleSelectSuggestion true containerPlace (.ok [leafPlace]) (.resolved false)
      initController).applyCall = none ∧
    (handleSelectSuggestion true containerPlace (.ok [leafPlace]) (.resolved false)
      initController).state.suggestions = [leafPlace] ∧
    (handleSelectSuggestion true containerPlace (.ok [leafPlace]) (.resolved false)
      initController).state.panelOpen = true ∧
    (handleSelectSuggestion true containerPlace (.ok [leafPlace]) (.resolved false)
      initController).state.selectionState = .idle ∧
    (handleSelectSuggestion true containerPlace (.ok [leafPlace]) (.resolved false)
      initController).state.isSearching = false := by
  have h := container_selection_expands_without_apply containerPlace initController
    (.ok [leafPlace]) (.resolved false) rfl (by decide)
  have hs := h.2.2.1 [leafPlace] rfl (by decide)
  exact ⟨rfl, by decide, h.1, hs.1, hs.2, h.2.2.2.2.2.1, h.2.2.2.2.2.2⟩

/-- Claim C4 counterexample: for the sub-building primary text
`"Flat 2, A, , B"` the code sets `address1 = "A, B"` (segments after the
first comma are each trimmed, empty ones dropped, and rejoined with
`", "`), while the remainder after the first comma is `" A, , B"`, so
neither the raw remainder nor its trim matches what overrides
`address1`. -/
theorem subbuilding_raw_remainder_cex :
    (deriveAddress (mkSubbuilding (strL "Flat 2, A, , B"))).address1 = strL "A, B" ∧
    ((strL "Flat 2, A, , B").dropWhile (fun c => c ≠ ',')).tail = strL " A, , B" ∧
    strL "A, B" ≠ strL " A, , B" ∧
    strL "A, B" ≠ trimChars (strL " A, , B") := by
  decide

/-- Claim C4 (amended): for every non-container Location of sub-building
type whose segment before the first comma trims to a non-empty string,
the derived address takes that trimmed segment as `address2`, and the
remaining comma-separated segments — each trimmed, empty ones discarded,
rejoined with `", "` — override `address1` when that result is
non-empty; in particular `"Flat 2, 10 Main Street"` yields
`address2 = "Flat 2"` and `address1 = "10 Main Street"`. -/
theorem subbuilding_split_amended (place : Location)
    (hty : place.type = some (strL "address.residential.subbuilding.name"))
    (hlead : trimChars (place.primary.text.takeWhile (fun c => c ≠ ',')) ≠ []) :
    (deriveAddress place).address2 =
      some (trimChars (place.primary.text.takeWhile (fun c => c ≠ ','))) ∧
    (∀ rem, rem = List.intercalate (strL ", ")
        ((((place.primary.text.splitOn ',').tail).map trimChars).filter (· ≠ [])) →
      rem ≠ [] → (deriveAddress place).address1 = rem) ∧
    (deriveAddress (mkSubbuilding (strL "Flat 2, 10 Main Street"))).address2
      = some (strL "Flat 2") ∧
    (deriveAddress (mkSubbuilding (strL "Flat 2, 10 Main Street"))).address1
      = strL "10 Main Street" := by
  have hne : place.primary.text ≠ [] := by
    intro h0
    apply hlead
    rw [h0]
    rfl
  have hsub : isSubbuildingLocation place.type = true := by
    simp [isSubbuildingLocation, hty]
  have hhead := splitOn_headD_takeWhile place.primary.text
  have hsplit1 : (splitPrimaryTextSegments place.primary.text).1 =
      some (trimChars (place.primary.text.takeWhile (fun c => c ≠ ','))) := by
    rw [splitPrimaryTextSegments, if_neg hne]
    simp only [hhead]
    rw [if_neg hlead]
  refine ⟨?_, ?_, by decide, by decide⟩
  · simp only [deriveAddress, hsub, if_true, ite_true]
    simpa using hsplit1
  · intro rem hrem hrne
    have hsplit2 : (splitPrimaryTextSegments place.primary.text).2 = some rem := by
      rw [splitPrimaryTextSegments, if_neg hne]
      simp only []
      rw [hrem, if_neg]
      rw [hrem] at hrne
      exact hrne
    simp only [deriveAddress, hsub, if_true, ite_true]
    simp only [hsplit2]

theorem subbuilding_split_witness :
    (mkSubbuilding (strL "Flat 2, 10 Main Street")).type
        = some (strL "address.residential.subbuilding.name") ∧
    trimChars ((mkSubbuilding (strL "Flat 2, 10 Main Street")).primary.text.takeWhile
        (fun c => c ≠ ',')) ≠ [] ∧
    (deriveAddress (mkSubbuilding (strL "Flat 2, 10 Main Street"))).address2
        = some (strL "Flat 2") ∧
    (deriveAddress (mkSubbuilding (strL "Flat 2, 10 Main Street"))).address1
        = strL "10 Main Street" := by
  have h := subbuilding_split_amended (mkSubbuilding (strL "Flat 2, 10 Main Street"))
    rfl (by decide)
  exact ⟨rfl, by decide, h.2.2.1, h.2.2.2⟩

/-- Claim C5: for every text and every well-formed highlight list
(sorted, non-overlapping inclusive offset pairs lying within the text,
as captured by `wfChain`), concatenating the values of all segments
emitted by the highlight renderer, in emission order and ignoring the
highlight flags, reconstructs the input text exactly, whatever the
fallback query is. -/
theorem highlight_concat_roundtrip (t : List Char) (hs : List Int)
    (fq : Option (List Char)) (h : wfChain (t.length : Int) 0 hs = true) :
    segsConcat (highlightSegments t (some hs) fq) = t := by
  have hwhole : segsConcat [(⟨t, false⟩ : Segment)] = t := by
    show t ++ [] = t
    rw [List.append_nil]
  unfold highlightSegments
  by_cases ho : hasOffsets (some hs) = true
  · simp only [if_pos ho, Option.getD_some]
    by_cases hnil : offsetsSegments t hs = []
    · rw [if_pos hnil]
      exact hwhole
    · rw [if_neg hnil]
      exact offsetsSegments_concat t hs h
  · simp only [if_neg ho]
    rcases fq with _ | q
    · simp only []
      exact hwhole
    · by_cases hqe : q = []
      · simp only [if_pos hqe]
        exact hwhole
      · simp only [if_neg hqe]
        by_cases hnil : fallbackSegments t q = []
        · rw [if_pos hnil]
          exact hwhole
        · rw [if_neg hnil]
          rcases fallbackSegments_cases t q with hc | hc
          · exact absurd hc hnil
          · exact hc

theorem highlight_concat_witness :
    wfChain (((strL "Main Street").length : Int)) 0 [2, 4] = true ∧
    segsConcat (highlightSegments (strL "Main Street") (some [2, 4]) none)
      = strL "Main Street" :=
  ⟨by decide, highlight_concat_roundtrip (strL "Main Street") [2, 4] none (by decide)⟩

/-- Claim C6: for every input value whose trimmed length is less than
`MIN_QUERY_LENGTH` (3), the search effect schedules no lookup fetch and
resets the search state: `suggestions` empty, `panelOpen` false,
`isSearching` false, and the selection state idle. -/
theorem short_query_resets_without_fetch (s : ControllerState)
    (h : (trimChars s.inputValue).length < MIN_QUERY_LENGTH) :
    (searchEffectSync s).2 = none ∧
    (searchEffectSync s).1.suggestions = [] ∧
    (searchEffectSync s).1.panelOpen = false ∧
    (searchEffectSync s).1.isSearching = false ∧
    (searchEffectSync s).1.selectionState = .idle := by
  simp [searchEffectSync, if_pos h]

theorem short_query_witness :
    (trimChars (strL "ab")).length < MIN_QUERY_LENGTH ∧
    ((searchEffectSync
        { initController with inputValue := strL "ab", panelOpen := true }).2 = none ∧
     (searchEffectSync
        { initController with inputValue := strL "ab", panelOpen := true }).1.suggestions
        = [] ∧
     (searchEffectSync
        { initController with inputValue := strL "ab", panelOpen := true }).1.panelOpen
        = false ∧
     (searchEffectSync
        { initController with inputValue := strL "ab", panelOpen := true }).1.isSearching
        = false ∧
     (searchEffectSync
        { initController with inputValue := strL "ab", panelOpen := true }).1.selectionState
        = .idle) :=
  ⟨by decide, short_query_resets_without_fetch _ (by decide)⟩

/-- Claim C7 counterexample: when the apply collaborator resolves with a
validation-error result (without throwing), the canonical controller —
which never inspects the resolved value — shows the success banner, not
a critical one. -/
theorem apply_validation_error_success_banner_cex :
    (handleSelectSuggestion true leafPlace .err (.resolved true)
        initController).state.statusBanner = some applySuccessBanner ∧
    applySuccessBanner.tone = .success ∧ applySuccessBanner.tone ≠ .critical := by
  decide

/-- Claim C7 (amended): for every throwing failure of the
apply-shipping-address collaborator on a non-container selection, the
controller leaves `suggestions`, `inputValue`, `panelOpen` and
`isSearching` unchanged, shows the critical apply-failure banner, and
moves the selection state to settled (an interactive state); a
validation-error result that resolves without throwing is not detected —
the controller shows the success banner, while still leaving
`suggestions` and `inputValue` unchanged. -/
theorem apply_failure_frame_amended (place : Location) (s : ControllerState)
    (containerRes : FetchResult)
    (hnc : place.isContainer = false ∨ place.container = []) :
    ((handleSelectSuggestion true place containerRes .threw s).state.suggestions
        = s.suggestions ∧
     (handleSelectSuggestion true place containerRes .threw s).state.inputValue
        = s.inputValue ∧
     (handleSelectSuggestion true place containerRes .threw s).state.panelOpen
        = s.panelOpen ∧
     (handleSelectSuggestion true place containerRes .threw s).state.isSearching
        = s.isSearching ∧
     (handleSelectSuggestion true place containerRes .threw s).state.statusBanner
        = some applyFailedBanner ∧
     (handleSelectSuggestion true place containerRes .threw s).state.selectionState
        = .settled (getLocationKey place) ∧
     (handleSelectSuggestion true place containerRes .threw s).containerLookup
        = none ∧
     (handleSelectSuggestion true place containerRes .threw s).applyCall
        = some (deriveAddress place)) ∧
    ∀ isError : Bool,
      (handleSelectSuggestion true place containerRes (.resolved isError)
          s).state.suggestions = s.suggestions ∧
      (handleSelectSuggestion true place containerRes (.resolved isError)
          s).state.inputValue = s.inputValue ∧
      (handleSelectSuggestion true place containerRes (.resolved isError)
          s).state.statusBanner = some applySuccessBanner := by
  have hcond : (place.isContainer && !place.container.isEmpty) = false := by
    rcases hnc with h | h <;> simp [h]
  constructor
  · simp [handleSelectSuggestion, hcond]
  · intro isError
    simp [handleSelectSuggestion, hcond]

theorem apply_failure_frame_witness :
    (leafPlace.isContainer = false ∨ leafPlace.container = []) ∧
    (handleSelectSuggestion true leafPlace .err .threw initController).state.suggestions
      = initController.suggestions ∧
    (handleSelectSuggestion true leafPlace .err .threw initController).state.inputValue
      = initController.inputValue ∧
    (handleSelectSuggestion true leafPlace .err .threw initController).state.statusBanner
      = some applyFailedBanner := by
  have h := apply_failure_frame_amended leafPlace initController .err (Or.inl rfl)
  exact ⟨Or.inl rfl, h.1.1, h.1.2.1, h.1.2.2.2.2.1⟩

/-- Claim C8: on the text `"Main Street"` with highlights `[2, 4]` the
renderer emits exactly `("Ma", plain)`, `("in ", highlighted)`,
`("Street", plain)` — the inclusive end offset 4 becomes the exclusive
bound 5. -/
theorem main_street_offsets_segments :
    highlightSegments (strL "Main Street") (some [2, 4]) none =
      [⟨strL "Ma", false⟩, ⟨strL "in ", true⟩, ⟨strL "Street", false⟩] := by
  decide

/-- Claim C9: whenever explicit highlights are absent or have fewer
than 2 entries, and the fallback query is non-empty after trimming, the
renderer performs a single case-insensitive substring search: either the
lowered query occurs in the lowered text at a first index `i` (no
earlier index matches) and the renderer emits prefix / match / suffix
with empty prefix and suffix omitted, or it occurs nowhere and the whole
text is one unhighlighted segment; in particular `"str"` on
`"Main Street"` yields `("Main ", plain)`, `("Str", highlighted)`,
`("eet", plain)`, with highlights absent or an empty array alike. -/
theorem fallback_query_case_insensitive_search (t q : List Char)
    (highlights : Option (List Int))
    (hh : highlights = none ∨ ∃ hs, highlights = some hs ∧ hs.length < 2)
    (hq : trimChars q ≠ []) :
    ((∃ i, ((trimChars q).map Char.toLower).isPrefixOf
          ((t.map Char.toLower).drop i) = true ∧
        (∀ j < i, ((trimChars q).map Char.toLower).isPrefixOf
          ((t.map Char.toLower).drop j) = false) ∧
        highlightSegments t highlights (some q) =
          (if 0 < i then [⟨t.take i, false⟩] else []) ++
          [⟨sliceL t i (i + (trimChars q).length), true⟩] ++
          (if i + (trimChars q).length < t.length then
            [⟨t.drop (i + (trimChars q).length), false⟩] else [])) ∨
      ((∀ j, ((trimChars q).map Char.toLower).isPrefixOf
          ((t.map Char.toLower).drop j) = false) ∧
        highlightSegments t highlights (some q) = [⟨t, false⟩])) ∧
    highlightSegments (strL "Main Street") none (some (strL "str")) =
      [⟨strL "Main ", false⟩, ⟨strL "Str", true⟩, ⟨strL "eet", false⟩] ∧
    highlightSegments (strL "Main Street") (some []) (some (strL "str")) =
      [⟨strL "Main ", false⟩, ⟨strL "Str", true⟩, ⟨strL "eet", false⟩] := by
  refine ⟨?_, by decide, by decide⟩
  have hqe : q ≠ [] := by
    intro h0
    apply hq
    rw [h0]
    rfl
  have hql : 0 < (trimChars q).length := by
    cases htq : trimChars q with
    | nil => exact absurd htq hq
    | cons a l => simp
  have hno : hasOffsets highlights = false := by
    rcases hh with rfl | ⟨hs, rfl, hlen⟩
    · rfl
    · simp only [hasOffsets, decide_eq_false_iff_not]
      omega
  have hoff : highlightSegments t highlights (some q) =
      if fallbackSegments t q = [] then [⟨t, false⟩] else fallbackSegments t q := by
    unfold highlightSegments
    simp only [hno, Bool.false_eq_true, if_false, if_neg hqe]
  cases hfind : findSub ((trimChars q).map Char.toLower) (t.map Char.toLower) with
  | some i =>
      left
      have hunf : fallbackSegments t q =
          (if 0 < i then [⟨t.take i, false⟩] else []) ++
          [⟨sliceL t i (i + (trimChars q).length), true⟩] ++
          (if i + (trimChars q).length < t.length then
            [⟨t.drop (i + (trimChars q).length), false⟩] else []) := by
        unfold fallbackSegments
        simp only [if_pos hql, hfind]
      have hne : fallbackSegments t q ≠ [] := by
        rw [hunf]
        simp
      refine ⟨i, findSub_some_prefix _ _ _ hfind, findSub_some_min _ _ _ hfind, ?_⟩
      rw [hoff, if_neg hne, hunf]
  | none =>
      right
      have hnil : fallbackSegments t q = [] := by
        unfold fallbackSegments
        simp only [if_pos hql, hfind]
      exact ⟨findSub_none_all _ _ hfind, by rw [hoff, if_pos hnil]⟩

theorem fallback_query_witness :
    ((some [] : Option (List Int)) = none ∨
      ∃ hs, (some [] : Option (List Int)) = some hs ∧ hs.length < 2) ∧
    trimChars (strL "str") ≠ [] ∧
    highlightSegments (strL "Main Street") none (some (strL "str")) =
      [⟨strL "Main ", false⟩, ⟨strL "Str", true⟩, ⟨strL "eet", false⟩] ∧
    highlightSegments (strL "Main Street") (some []) (some (strL "str")) =
      [⟨strL "Main ", false⟩, ⟨strL "Str", true⟩, ⟨strL "eet", false⟩] :=
  ⟨Or.inr ⟨[], rfl, by decide⟩, by decide,
    (fallback_query_case_insensitive_search (strL "Main Street") (strL "str") (some [])
      (Or.inr ⟨[], rfl, by decide⟩) (by decide)).2.1,
    (fallback_query_case_insensitive_search (strL "Main Street") (strL "str") (some [])
      (Or.inr ⟨[], rfl, by decide⟩) (by decide)).2.2⟩

/-- Claim C10: any two Locations with equal `primary.text` and equal
`secondary.text` get the same location key regardless of every other
field, so the active/selected suggestion marking — keyed on this
string — cannot distinguish two distinct suggestions that share both
display texts. -/
theorem location_key_ignores_non_text_fields (l1 l2 : Location)
    (h1 : l1.primary.text = l2.primary.text)
    (h2 : l1.secondary.text = l2.secondary.text) :
    getLocationKey l1 = getLocationKey l2 ∧
    ∀ k : Option (List Char),
      isActiveMark k l1 = isActiveMark k l2 ∧
      isSelectedMark k l1 = isSelectedMark k l2 := by
  have hkey : getLocationKey l1 = getLocationKey l2 := by
    unfold getLocationKey
    rw [h1, h2]
  exact ⟨hkey, fun k => by simp [isActiveMark, isSelectedMark, hkey]⟩

theorem location_key_witness :
    leafPlace.primary.text = leafPlaceTagged.primary.text ∧
    leafPlace.secondary.text = leafPlaceTagged.secondary.text ∧
    leafPlace ≠ leafPlaceTagged ∧
    getLocationKey leafPlace = getLocationKey leafPlaceTagged ∧
    ∀ k : Option (List Char),
      isActiveMark k leafPlace = isActiveMark k leafPlaceTagged ∧
      isSelectedMark k leafPlace = isSelectedMark k leafPlaceTagged := by
  have h := location_key_ignores_non_text_fields leafPlace leafPlaceTagged rfl rfl
  exact ⟨rfl, rfl, by decide, h.1, h.2⟩

end Spec2Proof
